import Mathlib

/-!
Verification of the template-resolution and collision-safe renaming engine of
`plugins/rename-file-on-update/file_manager.py`.

Python strings are modelled as `List Char` (`Str`); a Python function that can
raise is modelled as returning `Option _` with `none` standing for the raised
exception.  Records coming from the catalog (scene, studio, file) are modelled
as structures whose optional fields stand for absent dictionary keys.  The
unbounded `while` loops of the source (the parent-studio walk and the
collision-resolution loop) take an explicit fuel argument; filesystem paths are
taken as plain strings and `pathlib.Path.absolute()` is modelled by an
environment-supplied function.
-/

namespace FileManager

abbrev Str := List Char

def strOf (s : String) : Str := s.data

/-- Bool-valued prefix test on character lists (Python `str.startswith` /
the anchored part of pattern matching). -/
def isPrefixAt : Str → Str → Bool
  | [], _ => true
  | _ :: _, [] => false
  | p :: ps, c :: cs => p = c && isPrefixAt ps cs

/-- Bool-valued substring test, embedding Python's `pat in s`. -/
def containsSub (pat : Str) : Str → Bool
  | [] => isPrefixAt pat []
  | c :: rest => isPrefixAt pat (c :: rest) || containsSub pat rest

/-- Worker for `listReplace`: when `skip = n + 1` the next character belongs to
an already-matched occurrence of the pattern and is dropped. -/
def replaceAux (pat rep : Str) : Nat → Str → Str
  | _, [] => []
  | skip + 1, _ :: rest => replaceAux pat rep skip rest
  | 0, c :: rest =>
    if pat ≠ [] ∧ isPrefixAt pat (c :: rest) then
      rep ++ replaceAux pat rep (pat.length - 1) rest
    else
      c :: replaceAux pat rep 0 rest

/-- Embeds Python `s.replace(pat, rep)` (left-to-right, non-overlapping;
the source only ever calls it with a non-empty pattern). -/
def listReplace (s pat rep : Str) : Str := replaceAux pat rep 0 s

/-- Embeds Python `s.split(sep)` for a one-character separator. -/
def splitOnChar (sep : Char) : Str → List Str
  | [] => [[]]
  | c :: rest =>
    if c = sep then [] :: splitOnChar sep rest
    else
      match splitOnChar sep rest with
      | s :: ss => (c :: s) :: ss
      | [] => [[c]]

/-- Index of the last occurrence of `c`, if any. -/
def lastIdxOf (c : Char) : Str → Option Nat
  | [] => none
  | x :: rest =>
    match lastIdxOf c rest with
    | some i => some (i + 1)
    | none => if x = c then some 0 else none

/-- Word character for the regex `\w` (ASCII reading). -/
def isWordChar (c : Char) : Bool := c.isAlphanum || c == '_'

/-- If the list begins with a complete `$word$` token (regex `\$\w+\$`),
return its length. -/
def tokenLen (l : Str) : Option Nat :=
  match l with
  | [] => none
  | c :: rest =>
    if c = '$' then
      let r := (rest.takeWhile isWordChar).length
      if 1 ≤ r ∧ (rest.drop r).head? = some '$' then some (r + 2) else none
    else none

/-- Least end position of a `$word$` token inside `l` (the leftmost token also
has the least end, since tokens cannot nest). -/
def minTokenEnd : Str → Option Nat
  | [] => none
  | c :: rest =>
    match tokenLen (c :: rest) with
    | some t => some t
    | none => (minTokenEnd rest).map (· + 1)

/-- Length of the (greedy, leftmost) match of the regex
`\{.*\$\w+\$.*\}` when it matches at the head of `l`:
`.` does not cross a newline, `.*` is greedy, so the match runs from the
opening `{` to the last `}` on the line that is preceded by a complete
`$word$` token. -/
def matchLen (l : Str) : Option Nat :=
  match l with
  | [] => none
  | c :: rest =>
    if c = '{' then
      let line := rest.takeWhile (fun ch => !(ch = '\n'))
      match minTokenEnd line with
      | none => none
      | some e =>
        match lastIdxOf '}' (line.drop e) with
        | none => none
        | some i => some (e + i + 2)
    else none

/-- Worker for `regexSubGreedy`; `skip` counts characters of the current match
still to be consumed. -/
def subAux : Nat → Str → Str
  | _, [] => []
  | skip + 1, _ :: rest => subAux skip rest
  | 0, c :: rest =>
    match matchLen (c :: rest) with
    | some n => subAux (n - 1) rest
    | none => c :: subAux 0 rest

/-- Embeds Python `re.sub(r"\{.*\$\w+\$.*\}", "", s)`: scan left to right,
delete every (greedy) match. -/
def regexSubGreedy (s : Str) : Str := subAux 0 s

/-- Embeds `clean_optional_from_format`: erase every regex match, then strip
any remaining curly braces. -/
def clean_optional_from_format (s : Str) : Str :=
  listReplace (listReplace (regexSubGreedy s) (strOf "\x7b") []) (strOf "\x7d") []

/-- Python value as produced by a variable resolver: a string, an int
(`height`, `width`, the injected `index`) or a list (`endpoints`). -/
inductive PyVal where
  | vstr : Str → PyVal
  | vint : Int → PyVal
  | vlist : List Str → PyVal
deriving DecidableEq

/-- Python truthiness test `not value` on resolver results. -/
def PyVal.falsy : PyVal → Bool
  | .vstr s => s = []
  | .vint n => n = 0
  | .vlist l => l = []

/-- Python `repr` of a list of strings, as produced by `str(value)` when the
value is a list (quote-escaping corner cases are not modelled). -/
def pyListRepr (l : List Str) : Str :=
  '[' :: List.intercalate (strOf ", ") (l.map (fun s => '\'' :: (s ++ ['\'']))) ++ [']']

/-- Python `str(value)` applied before `.replace` in `apply_format`. -/
def PyVal.pyStr : PyVal → Str
  | .vstr s => s
  | .vint n => strOf (toString n)
  | .vlist l => pyListRepr l

/-- A studio record (`scene["studio"]` or a `find_studio` result): dictionary
fields may be absent. `parent_studio` holds the reference passed back to
`stash.find_studio`; `stash_ids` holds the `endpoint` field of each entry. -/
structure Studio where
  name : Option Str
  parent_studio : Option Str
  stash_ids : List (Option Str)
deriving DecidableEq

/-- The empty dictionary `{}` used as default for `scene.get("studio", {})`. -/
def emptyStudio : Studio := ⟨none, none, []⟩

/-- A scene record; `none` fields model absent dictionary keys. -/
structure Scene where
  id : Option Str
  title : Option Str
  date : Option Str
  director : Option Str
  code : Option Str
  studio : Option Studio
deriving DecidableEq

/-- A file record. `path`, `basename` and `id` are accessed by direct
indexing in the source and are modelled as always present; `index` is the
synthetic field injected by `get_new_file_name`. -/
structure FileData where
  id : Str
  path : Str
  basename : Str
  audio_codec : Option Str
  video_codec : Option Str
  format : Option Str
  height : Option Int
  width : Option Int
  index : Option Int
deriving DecidableEq

/-- `key_getter` on an optional int field (`data.get(key, "")`). -/
def pyOfOptInt : Option Int → PyVal
  | some n => .vint n
  | none => .vstr []

/-- Keys of `FILE_VARIABLES`, in dictionary (insertion) order. -/
def fileVariableNames : List Str :=
  [strOf "audio_codec", strOf "ext", strOf "format", strOf "height",
   strOf "index", strOf "video_codec", strOf "width"]

/-- Keys of `SCENE_VARIABLES`, in dictionary (insertion) order. -/
def sceneVariableNames : List Str :=
  [strOf "scene_id", strOf "title", strOf "date", strOf "director",
   strOf "month", strOf "parent_studio_chain", strOf "studio_code",
   strOf "studio_name", strOf "year", strOf "endpoints"]

/-- The lambdas of `FILE_VARIABLES`; none of them can raise. -/
def evalFileVar (file : FileData) (v : Str) : PyVal :=
  if v = strOf "audio_codec" then .vstr (file.audio_codec.getD [])
  else if v = strOf "ext" then .vstr ((splitOnChar '.' file.basename).getLastD [])
  else if v = strOf "format" then .vstr (file.format.getD [])
  else if v = strOf "height" then pyOfOptInt file.height
  else if v = strOf "index" then pyOfOptInt file.index
  else if v = strOf "video_codec" then .vstr (file.video_codec.getD [])
  else if v = strOf "width" then pyOfOptInt file.width
  else .vstr []

/-- Python truthiness of `current_studio.get("parent_studio")`. -/
def parentTruthy : Option Str → Bool
  | none => false
  | some p => p ≠ []

/-- The `while current_studio.get("parent_studio")` loop of
`get_parent_studio_chain`, with explicit fuel for the unbounded walk;
`none` models either a raised exception (`find_studio` returned `None`)
or fuel exhaustion (a diverging parent chain). -/
def chainLoop (find : Str → Option Studio) : Nat → Studio → List (Option Str) →
    Option (List (Option Str))
  | 0, _, _ => none
  | fuel + 1, cur, acc =>
    if parentTruthy cur.parent_studio then
      match find (cur.parent_studio.getD []) with
      | none => none
      | some nxt => chainLoop find fuel nxt (acc ++ [nxt.name])
    else some acc

/-- `"/".join(...)` over possibly-`None` entries: raises (`none`) if any
entry is `None`. -/
def optionAll : List (Option Str) → Option (List Str)
  | [] => some []
  | none :: _ => none
  | some s :: rest => (optionAll rest).map (s :: ·)

/-- Embeds `get_parent_studio_chain`: collect the studio name, walk the
parent chain appending each parent's name, then join the reversed chain
with `/`. -/
def get_parent_studio_chain (cf : Nat) (find : Str → Option Studio)
    (scene : Scene) : Option Str := do
  let cur := scene.studio.getD emptyStudio
  let chain ← chainLoop find cf cur [some (cur.name.getD [])]
  let names ← optionAll chain
  pure (List.intercalate (strOf "/") names.reverse)

/-- The endpoint list produced by `SCENE_VARIABLES["endpoints"]`. -/
def endpointsOf (scene : Scene) : List Str :=
  ((scene.studio.getD emptyStudio).stash_ids).map (fun e => e.getD [])

/-- The lambdas of `SCENE_VARIABLES`; `none` models a raised exception
(`month` on a date with no `-`, or a failing parent-studio walk). -/
def evalSceneVar (cf : Nat) (find : Str → Option Studio) (scene : Scene)
    (v : Str) : Option PyVal :=
  if v = strOf "scene_id" then some (.vstr (scene.id.getD []))
  else if v = strOf "title" then some (.vstr (scene.title.getD []))
  else if v = strOf "date" then some (.vstr (scene.date.getD []))
  else if v = strOf "director" then some (.vstr (scene.director.getD []))
  else if v = strOf "month" then
    let d := scene.date.getD []
    if d ≠ [] then ((splitOnChar '-' d).get? 1).map .vstr else some (.vstr [])
  else if v = strOf "parent_studio_chain" then
    (get_parent_studio_chain cf find scene).map .vstr
  else if v = strOf "studio_code" then some (.vstr (scene.code.getD []))
  else if v = strOf "studio_name" then
    some (.vstr ((scene.studio.getD emptyStudio).name.getD []))
  else if v = strOf "year" then
    let d := scene.date.getD []
    if d ≠ [] then ((splitOnChar '-' d).get? 0).map .vstr else some (.vstr [])
  else if v = strOf "endpoints" then some (.vlist (endpointsOf scene))
  else some (.vstr [])

/-- The `$name$` token of a variable. -/
def tok (v : Str) : Str := '$' :: (v ++ ['$'])

/-- Embeds `find_variables`: file-variable names first, then scene-variable
names, keeping those whose token occurs in the template. -/
def find_variables (t : Str) : List Str :=
  fileVariableNames.filter (fun v => containsSub (tok v) t)
    ++ sceneVariableNames.filter (fun v => containsSub (tok v) t)

/-- The `if variable in FILE_VARIABLES ... elif ... in SCENE_VARIABLES`
dispatch of `apply_format`; `none` on an unknown name models the
`NameError` of the unbound `value`. -/
def evalVar (cf : Nat) (find : Str → Option Studio) (scene : Scene)
    (file : FileData) (v : Str) : Option PyVal :=
  if fileVariableNames.contains v then some (evalFileVar file v)
  else if sceneVariableNames.contains v then evalSceneVar cf find scene v
  else none

/-- The substitution loop of `apply_format`: skip falsy values, otherwise
replace every occurrence of the token by `str(value)`. -/
def substLoop (cf : Nat) (find : Str → Option Studio) (scene : Scene)
    (file : FileData) : List Str → Str → Option Str
  | [], acc => some acc
  | v :: vs, acc =>
    match evalVar cf find scene file v with
    | none => none
    | some value =>
      substLoop cf find scene file vs
        (if value.falsy then acc else listReplace acc (tok v) value.pyStr)

/-- Embeds `apply_format`: substitute non-empty variables, then clean the
optional sections. -/
def apply_format (cf : Nat) (find : Str → Option Studio) (t : Str)
    (scene : Scene) (file : FileData) : Option Str :=
  (substLoop cf find scene file (find_variables t) t).map clean_optional_from_format

/-- The plugin configuration; template fields are strings with `""` meaning
unset (Python falsiness), flags are booleans. -/
structure Config where
  default_directory_path_format : Str
  second_directory_path_format : Str
  default_file_name_format : Str
  duplicate_file_suffix : Str
  default_graphql_endpoint : Str
  allow_unsafe_characters : Bool
  remove_extra_spaces_from_file_name : Bool
  remove_and_replace_as_in_whisparr : Bool
  rename_related_files : Bool
  dry_run : Bool
deriving DecidableEq

/-- Directory part of a path (`pathlib` parent): text before the last `/`,
`"."` when there is no `/`, `"/"` for a file directly under the root. -/
def dirname (s : Str) : Str :=
  match lastIdxOf '/' s with
  | none => ['.']
  | some 0 => ['/']
  | some i => s.take i

/-- Final component of a path (`pathlib` name). -/
def basename (s : Str) : Str :=
  match lastIdxOf '/' s with
  | none => s
  | some i => s.drop (i + 1)

/-- `pathlib` suffix of a file name: from the last dot, unless the dot is the
first or the last character. -/
def nameSuffix (n : Str) : Str :=
  match lastIdxOf '.' n with
  | none => []
  | some i => if 0 < i ∧ i + 1 < n.length then n.drop i else []

/-- `pathlib` stem of a file name: the name without its suffix. -/
def nameStem (n : Str) : Str :=
  match lastIdxOf '.' n with
  | none => n
  | some i => if 0 < i ∧ i + 1 < n.length then n.take i else n

/-- `pathlib` `/` join of a directory and a name. -/
def pathJoin (dir nm : Str) : Str := dir ++ '/' :: nm

/-- Python `s.rsplit(".", 1)` when it yields two parts; `none` when the
string has no dot (so that indexing `[1]` raises `IndexError`). -/
def rsplitDot (s : Str) : Option (Str × Str) :=
  match lastIdxOf '.' s with
  | none => none
  | some i => some (s.take i, s.drop (i + 1))

/-- The character class of `re.sub(r"[<>:\"/\\|?*]", "", file_name)`. -/
def unsafeChars : Str := strOf "<>:\"/\\|?*"

/-- Strip (not replace) every unsafe character. -/
def removeUnsafe (s : Str) : Str := s.filter (fun c => !(unsafeChars.contains c))

/-- Python `\s` (ASCII reading). -/
def isPySpace (c : Char) : Bool :=
  c == ' ' || c == '\t' || c == '\n' || c == '\r' || c == '\x0b' || c == '\x0c'

/-- Worker for `collapseWs`; the flag records whether the previous character
belonged to a whitespace run. -/
def collapseAux : Bool → Str → Str
  | _, [] => []
  | inRun, c :: rest =>
    if isPySpace c then
      if inRun then collapseAux true rest else ' ' :: collapseAux true rest
    else c :: collapseAux false rest

/-- Embeds `re.sub(r"\s+", " ", s)`: collapse every whitespace run to one
space. -/
def collapseWs (s : Str) : Str := collapseAux false s

/-- The two post-processing steps at the end of `get_new_file_name`. -/
def finishName (config : Config) (s : Str) : Str :=
  let s := if config.allow_unsafe_characters then s else removeUnsafe s
  if config.remove_extra_spaces_from_file_name then collapseWs s else s

/-- The character substitution map of the `remove_and_replace_as_in_whisparr`
compatibility mode. -/
def whisparrSub (s : Str) : Str :=
  s.filterMap (fun c =>
    if c = ':' ∨ c = '<' ∨ c = '>' ∨ c = '|' ∨ c = '"' then none
    else if c = '?' then some '!'
    else if c = '*' then some '-'
    else some c)

/-- Embeds `StashFile.get_new_file_name` for a given `duplicate_index`:
`none` models a raised exception (from `apply_format`, or the `IndexError`
of `rsplit(".", 1)[1]` on a dotless formatted name). -/
def get_new_file_name (cf : Nat) (find : Str → Option Studio) (config : Config)
    (scene : Scene) (file : FileData) (dupIdx : Nat) : Option Str :=
  if config.default_file_name_format = [] then some file.basename
  else
    let fd := { file with index := some (dupIdx : Int) }
    match apply_format cf find config.default_file_name_format scene fd with
    | none => none
    | some fileName =>
      let spliced? :=
        if dupIdx ≠ 0 then
          match apply_format cf find config.duplicate_file_suffix scene fd with
          | none => none
          | some suffixStr =>
            match rsplitDot fileName with
            | none => none
            | some (base, ext) => some (base ++ suffixStr ++ '.' :: ext)
        else some fileName
      spliced?.map (finishName config)

/-- The external world of the plugin: the catalog lookup, the filesystem
(existence, directory listing) and the behaviour of `pathlib.absolute()`
and of OS-level renames (which may fail). -/
structure Env where
  find : Str → Option Studio
  fsExists : Str → Bool
  listDir : Str → List Str
  renameFails : Str → Str → Bool
  absolute : Str → Str

/-- Embeds `StashFile.get_old_file_path`. -/
def get_old_file_path (env : Env) (file : FileData) : Str :=
  env.absolute file.path

/-- Embeds `StashFile.get_new_file_folder`: pick the directory template by
endpoint membership (or reuse the source's parent directory), format it,
normalize, and optionally apply the whisparr substitutions. -/
def get_new_file_folder (cf : Nat) (env : Env) (config : Config)
    (scene : Scene) (file : FileData) : Option Str :=
  let dir? :=
    if config.default_directory_path_format ≠ [] then
      let fmt :=
        if (endpointsOf scene).contains config.default_graphql_endpoint then
          config.default_directory_path_format
        else config.second_directory_path_format
      (apply_format cf env.find fmt scene file).map env.absolute
    else some (env.absolute (dirname file.path))
  dir?.map (fun d => if config.remove_and_replace_as_in_whisparr then whisparrSub d else d)

/-- Embeds `StashFile.get_new_file_path` at a given duplicate index. -/
def get_new_file_path (cf : Nat) (env : Env) (config : Config) (scene : Scene)
    (file : FileData) (dupIdx : Nat) : Option Str :=
  match get_new_file_folder cf env config scene file with
  | none => none
  | some folder =>
    (get_new_file_name cf env.find config scene file dupIdx).map (pathJoin folder)

/-- Observable mutations of the filesystem or the catalog. -/
inductive Effect where
  | moveFile : Str → Str → Str → Effect
  | mkdir : Str → Effect
  | renameOk : Str → Str → Effect
  | renameFailed : Str → Str → Effect
deriving DecidableEq

/-- The related files enumerated by `old_directory.glob(f"{old_path.stem}.*")`
minus the old path itself, as full paths. -/
def relatedList (env : Env) (oldPath : Str) : List Str :=
  ((env.listDir (dirname oldPath)).filter (fun nm =>
      isPrefixAt (nameStem (basename oldPath) ++ ['.']) nm
        && decide (pathJoin (dirname oldPath) nm ≠ oldPath))).map
    (pathJoin (dirname oldPath))

/-- The target path of a related file:
`new_directory / f"{new_path.stem}{related_file.suffix}"`. -/
def siblingTarget (newDir newStemStr related : Str) : Str :=
  pathJoin newDir (newStemStr ++ nameSuffix (basename related))

/-- One iteration of the `for related_file in related_files` loop: skip a
sibling whose target equals itself or already exists; in dry-run mode stop
after logging; otherwise create the target directory and attempt the rename,
an `OSError` being caught and logged. -/
def siblingStep (env : Env) (dryRun : Bool) (newDir newStemStr related : Str) :
    List Effect :=
  let target := siblingTarget newDir newStemStr related
  if related = target then []
  else if env.fsExists target then []
  else if dryRun then []
  else
    Effect.mkdir (dirname target) ::
      (if env.renameFails related target then [Effect.renameFailed related target]
       else [Effect.renameOk related target])

/-- The sibling loop. -/
def siblingLoop (env : Env) (dryRun : Bool) (newDir newStemStr : Str) :
    List Str → List Effect
  | [] => []
  | r :: rest =>
    siblingStep env dryRun newDir newStemStr r
      ++ siblingLoop env dryRun newDir newStemStr rest

/-- Embeds `StashFile.rename_related_files`, returning the effects produced. -/
def rename_related_files (env : Env) (config : Config)
    (oldPath newPath : Str) (dryRun : Bool) : List Effect :=
  if config.rename_related_files = false then []
  else
    let rel := relatedList env oldPath
    if rel = [] then []
    else siblingLoop env dryRun (dirname newPath) (nameStem (basename newPath)) rel

/-- Result of the `while new_path.exists()` collision loop. -/
inductive LoopResult where
  | fuelOut : LoopResult
  | raised : LoopResult
  | sameAfter : Nat → LoopResult
  | done : Str → Nat → LoopResult
deriving DecidableEq

/-- Embeds the collision loop of `rename_file`: while the candidate exists,
increment the duplicate index, recompute, and stop early when the recomputed
candidate equals the source path. -/
def collisionLoop (cf : Nat) (env : Env) (config : Config) (scene : Scene)
    (file : FileData) (oldPath : Str) : Nat → Str → Nat → LoopResult
  | 0, _, _ => .fuelOut
  | fuel + 1, newPath, idx =>
    if env.fsExists newPath then
      match get_new_file_path cf env config scene file (idx + 1) with
      | none => .raised
      | some np =>
        if oldPath = np then .sameAfter (idx + 1)
        else collisionLoop cf env config scene file oldPath fuel np (idx + 1)
    else .done newPath idx

/-- Final outcome of `rename_file`. -/
inductive Outcome where
  | raised : Outcome
  | fuelOut : Outcome
  | sourceMissing : Outcome
  | samePath : Outcome
  | samePathAfter : Nat → Outcome
  | dryRunStop : Str → Nat → Outcome
  | renamed : Str → Nat → Outcome
deriving DecidableEq

/-- Outcome of a rename together with the observable mutations it performed. -/
structure RenameResult where
  outcome : Outcome
  effects : List Effect
deriving DecidableEq

/-- Embeds `StashFile.rename_file`: compute old and new paths, skip a missing
source or an identical path, run the collision loop, then either simulate
(dry run), or invoke the catalog move and rename the related files. -/
def rename_file (lf cf : Nat) (env : Env) (config : Config) (scene : Scene)
    (file : FileData) : RenameResult :=
  let oldPath := get_old_file_path env file
  match get_new_file_path cf env config scene file 0 with
  | none => ⟨.raised, []⟩
  | some newPath0 =>
    if env.fsExists oldPath = false then ⟨.sourceMissing, []⟩
    else if oldPath = newPath0 then ⟨.samePath, []⟩
    else
      match collisionLoop cf env config scene file oldPath lf newPath0 0 with
      | .fuelOut => ⟨.fuelOut, []⟩
      | .raised => ⟨.raised, []⟩
      | .sameAfter idx => ⟨.samePathAfter idx, []⟩
      | .done np idx =>
        if config.dry_run then
          ⟨.dryRunStop np idx, rename_related_files env config oldPath np true⟩
        else
          match get_new_file_folder cf env config scene file,
              get_new_file_name cf env.find config scene file idx with
          | some folder, some nm =>
            ⟨.renamed np idx,
              Effect.moveFile file.id folder nm
                :: rename_related_files env config oldPath np false⟩
          | _, _ => ⟨.raised, []⟩

/-- Characterization of a terminating parent-studio walk used to state the
organization-chain claim: from `st`, following `parent_studio` references via
`find` yields exactly the studios named by `names` (leaf-to-root order,
excluding `st` itself) and then stops. -/
inductive StudioWalk (find : Str → Option Studio) : Studio → List Str → Prop where
  | stop : ∀ st, parentTruthy st.parent_studio = false → StudioWalk find st []
  | step : ∀ st nxt nm rest, parentTruthy st.parent_studio = true →
      find (st.parent_studio.getD []) = some nxt → nxt.name = some nm →
      StudioWalk find nxt rest → StudioWalk find st (nm :: rest)

/-- Concrete three-studio catalog for the chain witness: `A → B → C`. -/
def findW : Str → Option Studio := fun i =>
  if i = strOf "b" then some ⟨some (strOf "B"), some (strOf "c"), []⟩
  else if i = strOf "c" then some ⟨some (strOf "C"), none, []⟩
  else none

/-- The leaf studio `A` of the chain witness. -/
def studioA : Studio := ⟨some (strOf "A"), some (strOf "b"), []⟩

/-- Environment for the duplicate-suffix witness: the first two candidate
paths and the source file exist on disk, the third candidate does not. -/
def envC2 : Env :=
  ⟨fun _ => none,
    fun s => s == strOf "/lib/movie.mp4" || s == strOf "/lib/movie (1).mp4"
      || s == strOf "/lib/orig.mp4",
    fun _ => [], fun _ _ => false, id⟩

/-- Configuration for the duplicate-suffix witness. -/
def configC2 : Config :=
  ⟨[], [], strOf "movie.mp4", strOf " ($index$)", [], false, false, false, false, false⟩

/-- Scene record for the duplicate-suffix witness. -/
def sceneC2 : Scene := ⟨none, none, none, none, none, none⟩

/-- File record for the duplicate-suffix witness. -/
def fileC2 : FileData :=
  ⟨strOf "9", strOf "/lib/orig.mp4", strOf "orig.mp4", none, none, none, none, none, none⟩

end FileManager

namespace FileManager

-- Sanity checks of the regex model against CPython `re.sub` behaviour.
example : clean_optional_from_format (strOf "\x7b$a$\x7dX\x7bT\x7d") = strOf "" := by decide
example : regexSubGreedy (strOf "\x7bT\x7dX\x7b$a$\x7d") = strOf "" := by decide
example : regexSubGreedy (strOf "X\x7b$a$\x7dY") = strOf "XY" := by decide
example : regexSubGreedy (strOf "\x7ba\x7d") = strOf "\x7ba\x7d" := by decide
example : regexSubGreedy (strOf "\x7b$a$\x7d \x7d X") = strOf " X" := by decide
example : regexSubGreedy ('{' :: '$' :: 'a' :: '$' :: '\n' :: ['}']) =
    '{' :: '$' :: 'a' :: '$' :: '\n' :: ['}'] := by decide
example : regexSubGreedy (strOf "\x7b\x7d $a$ \x7d") = strOf "" := by decide
example : regexSubGreedy (strOf "\x7b$a$\x7d\x7bb\x7d") = strOf "" := by decide
example : regexSubGreedy (strOf "a\x7b$x$\x7db\x7b$y$\x7dc") = strOf "ac" := by decide
example : regexSubGreedy ('{' :: '$' :: 'a' :: '$' :: '}' :: 'x' :: '\n' ::
    '{' :: '$' :: 'b' :: '$' :: '}' :: ['y']) = 'x' :: '\n' :: ['y'] := by decide
example : regexSubGreedy (strOf "\x7bx$\x7d") = strOf "\x7bx$\x7d" := by decide
example : regexSubGreedy (strOf "\x7b$9$\x7d") = strOf "" := by decide
example : regexSubGreedy (strOf "\x7b$a b$\x7d") = strOf "\x7b$a b$\x7d" := by decide
example : clean_optional_from_format (strOf "\x7b$a b$\x7d") = strOf "$a b$" := by decide
example : regexSubGreedy (strOf "no braces $t$") = strOf "no braces $t$" := by decide

-- End-to-end checks of the formatter on the spec's worked examples.
example :
    apply_format 0 (fun _ => none) (strOf "\x7b$director$ - \x7d$title$")
      ⟨none, some (strOf "Show"), none, none, none, none⟩
      ⟨strOf "1", strOf "/lib/a.mp4", strOf "a.mp4", none, none, none, none, none, none⟩
      = some (strOf "Show") := by decide

example :
    apply_format 0 (fun _ => none) (strOf "$year$/$studio_name$/$title$")
      ⟨none, some (strOf "Pilot"), some (strOf "2021-05-01"), none, none,
        some ⟨some (strOf "Acme"), none, []⟩⟩
      ⟨strOf "1", strOf "/lib/a.mp4", strOf "a.mp4", none, none, none, none, none, none⟩
      = some (strOf "2021/Acme/Pilot") := by decide

example :
    apply_format 0 (fun _ => none) (strOf "$title$")
      ⟨none, some [], none, none, none, none⟩
      ⟨strOf "1", strOf "/lib/a.mp4", strOf "a.mp4", none, none, none, none, none, none⟩
      = some (strOf "$title$") := by decide

example :
    apply_format 0 (fun _ => none) (strOf "$month$")
      ⟨none, none, some (strOf "20210501"), none, none, none⟩
      ⟨strOf "1", strOf "/lib/a.mp4", strOf "a.mp4", none, none, none, none, none, none⟩
      = none := by decide

/-! ### Helper lemmas -/

theorem takeWhile_all {α} (p : α → Bool) :
    ∀ l : List α, (∀ a ∈ l, p a = true) → l.takeWhile p = l := by
  intro l h
  induction l with
  | nil => rfl
  | cons a rest ih =>
    simp only [List.takeWhile_cons, h a (List.mem_cons_self a rest), ih
      (fun b hb => h b (List.mem_cons_of_mem a hb)), if_true]

theorem takeWhile_append_stop {α} (p : α → Bool) (l₁ : List α) (b : α)
    (l₂ : List α) (h1 : ∀ a ∈ l₁, p a = true) (hb : p b = false) :
    (l₁ ++ b :: l₂).takeWhile p = l₁ := by
  induction l₁ with
  | nil => simp [List.takeWhile_cons, hb]
  | cons a rest ih =>
    simp only [List.cons_append, List.takeWhile_cons,
      h1 a (List.mem_cons_self a rest), if_true, List.cons.injEq, true_and]
    exact ih (fun x hx => h1 x (List.mem_cons_of_mem a hx))

theorem lastIdxOf_concat_self (c : Char) :
    ∀ l : Str, lastIdxOf c (l ++ [c]) = some l.length := by
  intro l
  induction l with
  | nil => simp [lastIdxOf]
  | cons a rest ih => simp [lastIdxOf, ih]

theorem subAux_consume : ∀ (l : Str) (k : Nat), l.length ≤ k → subAux k l = [] := by
  intro l
  induction l with
  | nil => intro k _; cases k <;> rfl
  | cons a rest ih =>
    intro k hk
    match k, hk with
    | k' + 1, hk =>
      show subAux k' rest = []
      exact ih k' (Nat.le_of_succ_le_succ hk)

theorem mem_replace_single (c : Char) :
    ∀ (s : Str) (x : Char), x ∈ listReplace s [c] [] → x ∈ s ∧ x ≠ c := by
  intro s
  induction s with
  | nil => intro x hx; cases hx
  | cons a rest ih =>
    intro x hx
    unfold listReplace replaceAux at hx
    by_cases hac : c = a
    · rw [if_pos (by simp [isPrefixAt, hac])] at hx
      have := ih x hx
      exact ⟨List.mem_cons_of_mem a this.1, this.2⟩
    · rw [if_neg (by simp [isPrefixAt]; intro h; exact absurd h hac)] at hx
      rcases List.mem_cons.1 hx with rfl | hx'
      · exact ⟨List.mem_cons_self _ _, fun h => hac h.symm⟩
      · have := ih x hx'
        exact ⟨List.mem_cons_of_mem a this.1, this.2⟩

theorem mem_clean_no_brace (s : Str) (x : Char) :
    x ∈ clean_optional_from_format s → x ≠ '{' ∧ x ≠ '}' := by
  intro hx
  unfold clean_optional_from_format at hx
  have h2 := mem_replace_single '}' _ x hx
  have h1 := mem_replace_single '{' _ x h2.1
  exact ⟨h1.2, h2.2⟩

theorem splitOnChar_ne_nil (c : Char) : ∀ s : Str, splitOnChar c s ≠ [] := by
  intro s
  induction s with
  | nil => simp [splitOnChar]
  | cons a rest ih =>
    unfold splitOnChar
    by_cases h : a = c
    · simp [h]
    · rw [if_neg h]
      match hs : splitOnChar c rest with
      | [] => exact absurd hs ih
      | y :: ys => simp

theorem splitOnChar_len_two (c : Char) :
    ∀ s : Str, c ∈ s → 2 ≤ (splitOnChar c s).length := by
  intro s
  induction s with
  | nil => intro h; cases h
  | cons a rest ih =>
    intro h
    unfold splitOnChar
    by_cases hac : a = c
    · rw [if_pos hac]
      have h1 : 1 ≤ (splitOnChar c rest).length :=
        List.length_pos.2 (splitOnChar_ne_nil c rest)
      simpa using h1
    · rw [if_neg hac]
      have hcr : c ∈ rest := by
        rcases List.mem_cons.1 h with h' | h'
        · exact absurd h'.symm hac
        · exact h'
      have h2 := ih hcr
      match hs : splitOnChar c rest with
      | [] => exact absurd hs (splitOnChar_ne_nil c rest)
      | y :: ys =>
        rw [hs] at h2
        simpa using h2

theorem subAux_cons_match (c : Char) (rest : Str) :
    subAux 0 (c :: rest) =
      match matchLen (c :: rest) with
      | some n => subAux (n - 1) rest
      | none => c :: subAux 0 rest := rfl

/-! ### Claim C1 -/

/-- C1 counterexample: for the template `{$director$}X{$title$}` with an
unset director and title `T`, the claim predicts that only the first span is
elided and the second keeps its content with braces stripped, i.e. `XT`; the
code's regex is greedy and erases everything, yielding `""`. -/
theorem claim_C1_counterexample :
    apply_format 0 (fun _ => none) (strOf "\x7b$director$\x7dX\x7b$title$\x7d")
        ⟨none, some (strOf "T"), none, none, none, none⟩
        ⟨strOf "1", strOf "/lib/a.mp4", strOf "a.mp4", none, none, none, none, none, none⟩
      = some []
    ∧ some ([] : Str) ≠ some (strOf "XT") := by decide

/-- C1 (amended): the elision regex `\{.*\$\w+\$.*\}` matches greedily, so
for any template with two optional sections on one line where the first still
contains an unresolved token, the whole region from the first opening brace to
the final closing brace is erased — the intervening text `mid` and the second
section's resolved content `inner` included. -/
theorem claim_C1_greedy_elision (mid inner : Str)
    (hm : '\n' ∉ mid) (hi : '\n' ∉ inner) :
    clean_optional_from_format
      (strOf "\x7b$director$\x7d" ++ (mid ++ (strOf "\x7b" ++ (inner ++ strOf "\x7d")))) = [] := by
  show clean_optional_from_format
      ('{' :: (strOf "$director$\x7d" ++ (mid ++ ('{' :: (inner ++ ['}']))))) = []
  have hnoNL : ∀ a ∈ strOf "$director$\x7d" ++ (mid ++ ('{' :: (inner ++ ['}']))),
      (!(a = '\n')) = true := by
    intro a ha
    simp only [Bool.not_eq_true', decide_eq_false_iff_not]
    rcases List.mem_append.1 ha with h | h
    · have hc : ∀ x ∈ strOf "$director$\x7d", x ≠ '\n' := by decide
      exact hc a h
    rcases List.mem_append.1 h with h | h
    · exact fun hEq => hm (hEq ▸ h)
    rcases List.mem_cons.1 h with rfl | h
    · decide
    rcases List.mem_append.1 h with h | h
    · exact fun hEq => hi (hEq ▸ h)
    · rcases List.mem_singleton.1 h with rfl
      decide
  have hline : (strOf "$director$\x7d" ++ (mid ++ ('{' :: (inner ++ ['}'])))).takeWhile
        (fun ch => !(ch = '\n'))
      = strOf "$director$\x7d" ++ (mid ++ ('{' :: (inner ++ ['}']))) :=
    takeWhile_all _ _ hnoNL
  have hword : (strOf "director$\x7d" ++ (mid ++ ('{' :: (inner ++ ['}'])))).takeWhile isWordChar
      = strOf "director" :=
    takeWhile_append_stop isWordChar (strOf "director") '$'
      ('}' :: (mid ++ ('{' :: (inner ++ ['}'])))) (by decide) (by decide)
  have htl : tokenLen (strOf "$director$\x7d" ++ (mid ++ ('{' :: (inner ++ ['}'])))) = some 10 := by
    show tokenLen ('$' :: (strOf "director$\x7d" ++ (mid ++ ('{' :: (inner ++ ['}']))))) = some 10
    have h8 : ((strOf "director" : Str)).length = 8 := rfl
    have hdrop8 : (strOf "director$\x7d" ++ (mid ++ ('{' :: (inner ++ ['}'])))).drop 8
        = '$' :: ('}' :: (mid ++ ('{' :: (inner ++ ['}'])))) := rfl
    simp only [tokenLen, hword, h8, hdrop8]
    norm_num [List.head?]
  have hmte : minTokenEnd (strOf "$director$\x7d" ++ (mid ++ ('{' :: (inner ++ ['}'])))) = some 10 := by
    show minTokenEnd ('$' :: (strOf "director$\x7d" ++ (mid ++ ('{' :: (inner ++ ['}']))))) = some 10
    simp only [minTokenEnd]
    rw [show tokenLen ('$' :: (strOf "director$\x7d" ++ (mid ++ ('{' :: (inner ++ ['}'])))))
        = some 10 from htl]
  have hdrop10 : (strOf "$director$\x7d" ++ (mid ++ ('{' :: (inner ++ ['}'])))).drop 10
      = '}' :: (mid ++ ('{' :: (inner ++ ['}']))) := rfl
  have hsplit : '}' :: (mid ++ ('{' :: (inner ++ ['}'])))
      = ('}' :: (mid ++ ('{' :: inner))) ++ ['}'] := by
    simp [List.append_assoc]
  have hlast : lastIdxOf '}' ((strOf "$director$\x7d" ++ (mid ++ ('{' :: (inner ++ ['}'])))).drop 10)
      = some (mid.length + inner.length + 2) := by
    rw [hdrop10, hsplit, lastIdxOf_concat_self]
    simp only [List.length_cons, List.length_append, Option.some.injEq]
    omega
  have hml : matchLen ('{' :: (strOf "$director$\x7d" ++ (mid ++ ('{' :: (inner ++ ['}'])))))
      = some (mid.length + inner.length + 14) := by
    simp only [matchLen, if_pos rfl, hline, hmte, hlast, ite_true, Option.some.injEq]
    omega
  have hsub : subAux 0 ('{' :: (strOf "$director$\x7d" ++ (mid ++ ('{' :: (inner ++ ['}']))))) = [] := by
    rw [subAux_cons_match, hml]
    show subAux (mid.length + inner.length + 14 - 1)
      (strOf "$director$\x7d" ++ (mid ++ ('{' :: (inner ++ ['}'])))) = []
    apply subAux_consume
    have h11 : ((strOf "$director$\x7d" : Str)).length = 11 := rfl
    simp only [h11, List.length_append, List.length_cons, List.length_nil]
    omega
  show listReplace (listReplace (regexSubGreedy _) (strOf "\x7b") []) (strOf "\x7d") [] = []
  unfold regexSubGreedy
  rw [hsub]
  rfl

/-- C1 witness for the amended theorem at `mid = "X"`, `inner = "T"`. -/
theorem claim_C1_witness :
    clean_optional_from_format
      (strOf "\x7b$director$\x7d" ++ (strOf "X" ++ (strOf "\x7b" ++ (strOf "T" ++ strOf "\x7d")))) = [] :=
  claim_C1_greedy_elision (strOf "X") (strOf "T") (by decide) (by decide)

/-! ### Claim C3 -/

/-- C3 counterexample: a known placeholder (`title`) that resolves to the
empty string and sits outside any optional section is left in the output, so
`apply_format` can return a string that still contains a `$name$` token. -/
theorem claim_C3_counterexample :
    apply_format 0 (fun _ => none) (strOf "$title$")
        ⟨none, some [], none, none, none, none⟩
        ⟨strOf "1", strOf "/lib/a.mp4", strOf "a.mp4", none, none, none, none, none, none⟩
      = some (strOf "$title$")
    ∧ containsSub (tok (strOf "title")) (strOf "$title$") = true := by decide

/-- C3 (amended): whenever `apply_format` returns (does not raise), its result
contains no `{` and no `}` — the optional-section syntax is fully consumed —
but a `$name$` token of an empty-valued placeholder outside every optional
section survives (see the counterexample). -/
theorem claim_C3_no_braces (cf : Nat) (find : Str → Option Studio) (t : Str)
    (scene : Scene) (file : FileData) (r : Str)
    (h : apply_format cf find t scene file = some r) : '{' ∉ r ∧ '}' ∉ r := by
  unfold apply_format at h
  rcases Option.map_eq_some'.1 h with ⟨a, _, rfl⟩
  constructor
  · intro hx
    exact (mem_clean_no_brace a '{' hx).1 rfl
  · intro hx
    exact (mem_clean_no_brace a '}' hx).2 rfl

/-- C3 witness: the amended theorem applied to the elision example. -/
theorem claim_C3_witness :
    '{' ∉ strOf "Show" ∧ '}' ∉ strOf "Show" :=
  claim_C3_no_braces 0 (fun _ => none) (strOf "\x7b$director$ - \x7d$title$")
    ⟨none, some (strOf "Show"), none, none, none, none⟩
    ⟨strOf "1", strOf "/lib/a.mp4", strOf "a.mp4", none, none, none, none, none, none⟩
    (strOf "Show") (by decide)

/-! ### Claim C4 -/

theorem evalVar_total (cf : Nat) (find : Str → Option Studio) (scene : Scene)
    (file : FileData) (v : Str)
    (hv : v ∈ fileVariableNames ∨ v ∈ sceneVariableNames)
    (hm : v = strOf "month" →
      scene.date = none ∨ scene.date = some [] ∨ '-' ∈ scene.date.getD [])
    (hc : v ≠ strOf "parent_studio_chain") :
    evalVar cf find scene file v ≠ none := by
  rcases hv with hv | hv
  · simp only [fileVariableNames, List.mem_cons, List.not_mem_nil, or_false] at hv
    rcases hv with rfl | rfl | rfl | rfl | rfl | rfl | rfl <;>
      exact fun h => Option.noConfusion h
  · simp only [sceneVariableNames, List.mem_cons, List.not_mem_nil, or_false] at hv
    rcases hv with rfl | rfl | rfl | rfl | rfl | rfl | rfl | rfl | rfl | rfl
    · exact fun h => Option.noConfusion h
    · exact fun h => Option.noConfusion h
    · exact fun h => Option.noConfusion h
    · exact fun h => Option.noConfusion h
    · -- month
      have hred : evalVar cf find scene file (strOf "month")
          = (if (scene.date.getD []) ≠ [] then
              ((splitOnChar '-' (scene.date.getD [])).get? 1).map PyVal.vstr
            else some (.vstr [])) := rfl
      rw [hred]
      rcases hm rfl with hd | hd | hd
      · simp [hd]
      · simp [hd]
      · by_cases hne : (scene.date.getD []) = []
        · simp [hne]
        · rw [if_pos hne]
          have h2 := splitOnChar_len_two '-' (scene.date.getD []) hd
          have h1 : 1 < (splitOnChar '-' (scene.date.getD [])).length := by omega
          rw [List.get?_eq_get h1]
          simp
    · exact absurd rfl hc
    · exact fun h => Option.noConfusion h
    · exact fun h => Option.noConfusion h
    · -- year
      have hred : evalVar cf find scene file (strOf "year")
          = (if (scene.date.getD []) ≠ [] then
              ((splitOnChar '-' (scene.date.getD [])).get? 0).map PyVal.vstr
            else some (.vstr [])) := rfl
      rw [hred]
      by_cases hne : (scene.date.getD []) = []
      · simp [hne]
      · rw [if_pos hne]
        have h1 : 0 < (splitOnChar '-' (scene.date.getD [])).length :=
          List.length_pos.2 (splitOnChar_ne_nil '-' (scene.date.getD []))
        rw [List.get?_eq_get h1]
        simp
    · exact fun h => Option.noConfusion h

theorem substLoop_total (cf : Nat) (find : Str → Option Studio) (scene : Scene)
    (file : FileData) :
    ∀ (vs : List Str) (acc : Str),
      (∀ v ∈ vs, evalVar cf find scene file v ≠ none) →
      ∃ r, substLoop cf find scene file vs acc = some r := by
  intro vs
  induction vs with
  | nil => exact fun acc _ => ⟨acc, rfl⟩
  | cons v rest ih =>
    intro acc h
    have hv := h v (List.mem_cons_self _ _)
    match hval : evalVar cf find scene file v with
    | none => exact absurd hval hv
    | some value =>
      have hr := ih (if value.falsy then acc else listReplace acc (tok v) value.pyStr)
        (fun x hx => h x (List.mem_cons_of_mem _ hx))
      simpa [substLoop, hval] using hr

/-- C4 counterexample: for a non-empty date with no `-` separator the `month`
resolver raises `IndexError` (modelled as `none`), and `apply_format` on a
template mentioning `$month$` propagates the exception instead of degrading
to an empty value. -/
theorem claim_C4_counterexample :
    evalSceneVar 0 (fun _ => none)
        ⟨none, none, some (strOf "20210501"), none, none, none⟩ (strOf "month") = none
    ∧ apply_format 0 (fun _ => none) (strOf "$month$")
        ⟨none, none, some (strOf "20210501"), none, none, none⟩
        ⟨strOf "1", strOf "/lib/a.mp4", strOf "a.mp4", none, none, none, none, none, none⟩
      = none := by decide

/-- C4 (amended): formatting never raises — every variable resolver returns a
value, absent data degrading to empty — provided the template does not use the
`$parent_studio_chain$` external walk and the scene's date is absent, empty, or
contains a `-` separator.  The `month` resolver raises on a non-empty date with
no `-` (see the counterexample); `year` is safe since the first split segment
always exists. -/
theorem claim_C4_no_raise (cf : Nat) (find : Str → Option Studio) (t : Str)
    (scene : Scene) (file : FileData)
    (hchain : containsSub (tok (strOf "parent_studio_chain")) t = false)
    (hdate : scene.date = none ∨ scene.date = some [] ∨ '-' ∈ scene.date.getD []) :
    ∃ r, apply_format cf find t scene file = some r := by
  have hvars : ∀ v ∈ find_variables t, evalVar cf find scene file v ≠ none := by
    intro v hv
    rcases List.mem_append.1 hv with h | h
    · have h1 := List.mem_filter.1 h
      refine evalVar_total cf find scene file v (Or.inl h1.1) (fun _ => hdate) ?_
      intro hEq
      subst hEq
      exact absurd h1.1 (by decide)
    · have h1 := List.mem_filter.1 h
      refine evalVar_total cf find scene file v (Or.inr h1.1) (fun _ => hdate) ?_
      intro hEq
      subst hEq
      exact Bool.noConfusion (hchain.symm.trans h1.2)
  obtain ⟨r', hr'⟩ := substLoop_total cf find scene file (find_variables t) t hvars
  exact ⟨clean_optional_from_format r', by simp [apply_format, hr']⟩

/-- C4 witness: the amended theorem at a well-formed date. -/
theorem claim_C4_witness :
    ∃ r, apply_format 3 (fun _ => none) (strOf "$month$ $title$")
      ⟨none, some (strOf "Pilot"), some (strOf "2021-05-01"), none, none, none⟩
      ⟨strOf "1", strOf "/lib/a.mp4", strOf "a.mp4", none, none, none, none, none, none⟩
      = some r :=
  claim_C4_no_raise 3 (fun _ => none) (strOf "$month$ $title$")
    ⟨none, some (strOf "Pilot"), some (strOf "2021-05-01"), none, none, none⟩
    ⟨strOf "1", strOf "/lib/a.mp4", strOf "a.mp4", none, none, none, none, none, none⟩
    (by decide) (Or.inr (Or.inr (by decide)))

/-! ### Claim C5 -/

theorem siblingStep_dry (env : Env) (newDir newStemStr r : Str) :
    siblingStep env true newDir newStemStr r = [] := by
  simp [siblingStep]

theorem siblingLoop_dry (env : Env) (newDir newStemStr : Str) :
    ∀ rel : List Str, siblingLoop env true newDir newStemStr rel = [] := by
  intro rel
  induction rel with
  | nil => rfl
  | cons r rest ih =>
    show siblingStep env true newDir newStemStr r
        ++ siblingLoop env true newDir newStemStr rest = []
    rw [siblingStep_dry, ih]
    rfl

theorem rename_related_files_dry (env : Env) (config : Config)
    (oldPath newPath : Str) :
    rename_related_files env config oldPath newPath true = [] := by
  unfold rename_related_files
  split
  · rfl
  · dsimp only
    split
    · rfl
    · exact siblingLoop_dry env (dirname newPath) (nameStem (basename newPath)) _

/-- C5: with the dry-run flag set, `rename_file` performs no mutation at all —
no catalog move, no directory creation, no sibling rename; sibling handling is
only simulated. -/
theorem claim_C5_dry_run_frame (lf cf : Nat) (env : Env) (config : Config)
    (scene : Scene) (file : FileData) (h : config.dry_run = true) :
    (rename_file lf cf env config scene file).effects = [] := by
  unfold rename_file
  split
  · rfl
  · dsimp only
    split
    · rfl
    · split
      · rfl
      · split
        · rfl
        · rfl
        · rfl
        · exact rename_related_files_dry env config _ _

/-- C5 witness at a concrete dry-run configuration. -/
theorem claim_C5_witness :
    (rename_file 1 0 ⟨fun _ => none, fun _ => true, fun _ => [], fun _ _ => false, id⟩
        ⟨[], [], [], [], [], false, false, false, true, true⟩
        ⟨none, none, none, none, none, none⟩
        ⟨strOf "1", strOf "/lib/a.mp4", strOf "a.mp4", none, none, none, none, none, none⟩).effects
      = [] :=
  claim_C5_dry_run_frame 1 0 _ _ _ _ rfl

/-! ### Claim C6 -/

/-- C6: if the computed new path equals the old path — immediately, or after a
duplicate-suffix recomputation inside the collision loop — `rename_file`
returns without any catalog move, directory creation or sibling rename. -/
theorem claim_C6_noop_on_identical (lf cf : Nat) (env : Env) (config : Config)
    (scene : Scene) (file : FileData) :
    (∀ oldP, oldP = get_old_file_path env file → env.fsExists oldP = true →
      get_new_file_path cf env config scene file 0 = some oldP →
      rename_file lf cf env config scene file = ⟨.samePath, []⟩)
    ∧ (∀ oldP np0 i, oldP = get_old_file_path env file → env.fsExists oldP = true →
      get_new_file_path cf env config scene file 0 = some np0 → oldP ≠ np0 →
      collisionLoop cf env config scene file oldP lf np0 0 = .sameAfter i →
      rename_file lf cf env config scene file = ⟨.samePathAfter i, []⟩) := by
  constructor
  · rintro oldP rfl hex h0
    unfold rename_file
    rw [h0]
    dsimp only
    rw [hex]
    simp
  · rintro oldP np0 i rfl hex h0 hne hloop
    unfold rename_file
    rw [h0]
    dsimp only
    rw [hex, if_neg (by simp), if_neg hne, hloop]

/-- C6 witness: with no templates configured the computed path equals the old
path immediately, and the result is the samePath no-op with no effects. -/
theorem claim_C6_witness :
    rename_file 1 0 ⟨fun _ => none, fun _ => true, fun _ => [], fun _ _ => false, id⟩
        ⟨[], [], [], [], [], false, false, false, true, false⟩
        ⟨none, none, none, none, none, none⟩
        ⟨strOf "1", strOf "/lib/a.mp4", strOf "a.mp4", none, none, none, none, none, none⟩
      = ⟨.samePath, []⟩ :=
  (claim_C6_noop_on_identical 1 0 _ _ _ _).1 (strOf "/lib/a.mp4") rfl rfl (by decide)

/-! ### Claim C7 -/

theorem mem_siblingLoop (env : Env) (dryRun : Bool) (d s : Str) :
    ∀ (l : List Str) (r : Str), r ∈ l →
      ∀ x ∈ siblingStep env dryRun d s r, x ∈ siblingLoop env dryRun d s l := by
  intro l
  induction l with
  | nil => intro r hr; cases hr
  | cons a rest ih =>
    intro r hr x hx
    show x ∈ siblingStep env dryRun d s a ++ siblingLoop env dryRun d s rest
    rcases List.mem_cons.1 hr with rfl | hr'
    · exact List.mem_append.2 (Or.inl hx)
    · exact List.mem_append.2 (Or.inr (ih r hr' x hx))

/-- C7: every eligible sibling is attempted, each attempt isolated: whatever
the OS failure behaviour on any sibling, the rename of sibling `r` is still
attempted (recorded as `renameOk` or `renameFailed`), and the loop is never
aborted by a failure. -/
theorem claim_C7_sibling_isolation (env : Env) (config : Config)
    (oldPath newPath r tgt : Str)
    (hflag : config.rename_related_files = true)
    (hr : r ∈ relatedList env oldPath)
    (htgt : tgt = siblingTarget (dirname newPath) (nameStem (basename newPath)) r)
    (hne : r ≠ tgt) (hnex : env.fsExists tgt = false) :
    (if env.renameFails r tgt then Effect.renameFailed r tgt else Effect.renameOk r tgt)
      ∈ rename_related_files env config oldPath newPath false := by
  subst htgt
  have hstep : (if env.renameFails r (siblingTarget (dirname newPath) (nameStem (basename newPath)) r)
        then Effect.renameFailed r (siblingTarget (dirname newPath) (nameStem (basename newPath)) r)
        else Effect.renameOk r (siblingTarget (dirname newPath) (nameStem (basename newPath)) r))
      ∈ siblingStep env false (dirname newPath) (nameStem (basename newPath)) r := by
    simp only [siblingStep]
    rw [if_neg hne, if_neg (by simp [hnex]), if_neg (by decide : ¬(false = true))]
    by_cases hrf : env.renameFails r
        (siblingTarget (dirname newPath) (nameStem (basename newPath)) r) = true <;>
      simp [hrf]
  unfold rename_related_files
  rw [if_neg (by simp [hflag]), if_neg (List.ne_nil_of_mem hr)]
  exact mem_siblingLoop env false (dirname newPath) (nameStem (basename newPath))
    (relatedList env oldPath) r hr _ hstep

/-- C7 witness: a failing sibling rename is recorded and does not abort. -/
theorem claim_C7_witness :
    (if (⟨fun _ => none, fun _ => false,
          fun d => if d = strOf "/lib" then [strOf "a.srt"] else [],
          fun _ _ => true, id⟩ : Env).renameFails (strOf "/lib/a.srt") (strOf "/dst/b.srt")
      then Effect.renameFailed (strOf "/lib/a.srt") (strOf "/dst/b.srt")
      else Effect.renameOk (strOf "/lib/a.srt") (strOf "/dst/b.srt"))
      ∈ rename_related_files
          ⟨fun _ => none, fun _ => false,
            fun d => if d = strOf "/lib" then [strOf "a.srt"] else [],
            fun _ _ => true, id⟩
          ⟨[], [], [], [], [], false, false, false, true, false⟩
          (strOf "/lib/a.mp4") (strOf "/dst/b.mp4") false :=
  claim_C7_sibling_isolation _ _ (strOf "/lib/a.mp4") (strOf "/dst/b.mp4")
    (strOf "/lib/a.srt") (strOf "/dst/b.srt") rfl (by decide) (by decide)
    (by decide) rfl

/-! ### Claim C8 -/

theorem mem_removeUnsafe (s : Str) (x : Char) (hx : x ∈ removeUnsafe s) :
    unsafeChars.contains x = false := by
  have h2 := (List.mem_filter.1 hx).2
  simpa using h2

theorem mem_collapseAux (x : Char) :
    ∀ (s : Str) (b : Bool), x ∈ collapseAux b s → x ∈ s ∨ x = ' ' := by
  intro s
  induction s with
  | nil => intro b h; cases h
  | cons c rest ih =>
    intro b h
    unfold collapseAux at h
    by_cases hc : isPySpace c = true
    · rw [if_pos hc] at h
      cases b with
      | true =>
        rw [if_pos rfl] at h
        rcases ih true h with h' | h'
        · exact Or.inl (List.mem_cons_of_mem c h')
        · exact Or.inr h'
      | false =>
        rw [if_neg (by simp)] at h
        rcases List.mem_cons.1 h with rfl | h'
        · exact Or.inr rfl
        · rcases ih true h' with h'' | h''
          · exact Or.inl (List.mem_cons_of_mem c h'')
          · exact Or.inr h''
    · rw [if_neg hc] at h
      rcases List.mem_cons.1 h with rfl | h'
      · exact Or.inl (List.mem_cons_self _ _)
      · rcases ih false h' with h'' | h''
        · exact Or.inl (List.mem_cons_of_mem c h'')
        · exact Or.inr h''

/-- C8: with unsafe characters disallowed and a filename template configured,
the name produced by `get_new_file_name` is the formatted name with every
character of `< > : " / \ | ? *` removed (a filter, not a replacement), and
consequently contains none of them. -/
theorem claim_C8_sanitized (cf : Nat) (find : Str → Option Studio)
    (config : Config) (scene : Scene) (file : FileData) (dupIdx : Nat) (n : Str)
    (hallow : config.allow_unsafe_characters = false)
    (hfmt : config.default_file_name_format ≠ [])
    (h : get_new_file_name cf find config scene file dupIdx = some n) :
    (∃ s, n = (if config.remove_extra_spaces_from_file_name then
        collapseWs (removeUnsafe s) else removeUnsafe s))
    ∧ ∀ c ∈ n, unsafeChars.contains c = false := by
  unfold get_new_file_name at h
  rw [if_neg hfmt] at h
  dsimp only at h
  cases happly : apply_format cf find config.default_file_name_format scene
      { file with index := some (dupIdx : Int) } with
  | none => rw [happly] at h; simp at h
  | some fileName =>
    rw [happly] at h
    dsimp only at h
    rcases Option.map_eq_some'.1 h with ⟨m, hm, rfl⟩
    constructor
    · exact ⟨m, by simp [finishName, hallow]⟩
    · intro c hc
      have hmem : c ∈ (if config.remove_extra_spaces_from_file_name then
          collapseWs (removeUnsafe m) else removeUnsafe m) := by
        simpa [finishName, hallow] using hc
      by_cases hsp : config.remove_extra_spaces_from_file_name = true
      · rw [if_pos hsp] at hmem
        rcases mem_collapseAux c (removeUnsafe m) false hmem with h' | h'
        · exact mem_removeUnsafe _ _ h'
        · subst h'
          decide
      · rw [if_neg hsp] at hmem
        exact mem_removeUnsafe _ _ hmem

/-- C8 witness: the template `$title$` with title `A/B:C` yields `ABC`. -/
theorem claim_C8_witness :
    get_new_file_name 0 (fun _ => none)
        ⟨[], [], strOf "$title$", [], [], false, false, false, false, false⟩
        ⟨none, some (strOf "A/B:C"), none, none, none, none⟩
        ⟨strOf "1", strOf "/lib/a.mp4", strOf "a.mp4", none, none, none, none, none, none⟩ 0
      = some (strOf "ABC")
    ∧ ∀ c ∈ strOf "ABC", unsafeChars.contains c = false :=
  ⟨by decide,
    (claim_C8_sanitized 0 (fun _ => none)
      ⟨[], [], strOf "$title$", [], [], false, false, false, false, false⟩
      ⟨none, some (strOf "A/B:C"), none, none, none, none⟩
      ⟨strOf "1", strOf "/lib/a.mp4", strOf "a.mp4", none, none, none, none, none, none⟩ 0
      (strOf "ABC") rfl (by decide) (by decide)).2⟩

/-! ### Claim C10 -/

/-- C10: with `duplicate_index ≠ 0` and a filename template configured, the
duplicate suffix is spliced between the part of the formatted name before its
last `.` and the extension after it; when the formatted name contains no `.`,
`get_new_file_name` raises `IndexError` (returns `none`) instead of producing
a name. -/
theorem claim_C10_dup_splice (cf : Nat) (find : Str → Option Studio)
    (config : Config) (scene : Scene) (file : FileData) (dupIdx : Nat) (s t : Str)
    (hd : dupIdx ≠ 0) (hf : config.default_file_name_format ≠ [])
    (hs : apply_format cf find config.default_file_name_format scene
      { file with index := some (dupIdx : Int) } = some s)
    (ht : apply_format cf find config.duplicate_file_suffix scene
      { file with index := some (dupIdx : Int) } = some t) :
    (rsplitDot s = none → get_new_file_name cf find config scene file dupIdx = none)
    ∧ ∀ b e, rsplitDot s = some (b, e) →
      get_new_file_name cf find config scene file dupIdx
        = some (finishName config (b ++ t ++ '.' :: e)) := by
  constructor
  · intro hsplit
    unfold get_new_file_name
    rw [if_neg hf]
    dsimp only
    rw [hs]
    dsimp only
    rw [if_pos hd, ht, hsplit]
    rfl
  · intro b e hsplit
    unfold get_new_file_name
    rw [if_neg hf]
    dsimp only
    rw [hs]
    dsimp only
    rw [if_pos hd, ht, hsplit]
    rfl

/-- C10 witness: a dotless formatted name makes the splice raise. -/
theorem claim_C10_witness :
    rsplitDot (strOf "noext") = none
    ∧ get_new_file_name 0 (fun _ => none)
        ⟨[], [], strOf "noext", strOf " ($index$)", [], false, false, false, false, false⟩
        ⟨none, none, none, none, none, none⟩
        ⟨strOf "1", strOf "/lib/a.mp4", strOf "a.mp4", none, none, none, none, none, none⟩ 1
      = none :=
  ⟨by decide,
    (claim_C10_dup_splice 0 (fun _ => none)
      ⟨[], [], strOf "noext", strOf " ($index$)", [], false, false, false, false, false⟩
      ⟨none, none, none, none, none, none⟩
      ⟨strOf "1", strOf "/lib/a.mp4", strOf "a.mp4", none, none, none, none, none, none⟩ 1
      (strOf "noext") (strOf " (1)") (by decide) (by decide) (by decide) (by decide)).1
      (by decide)⟩

/-! ### Claim C9 -/

theorem optionAll_map_some : ∀ l : List Str, optionAll (l.map some) = some l := by
  intro l
  induction l with
  | nil => rfl
  | cons a rest ih => simp [optionAll, ih]

theorem chainLoop_succ (find : Str → Option Studio) (fuel : Nat) (cur : Studio)
    (acc : List (Option Str)) :
    chainLoop find (fuel + 1) cur acc =
      if parentTruthy cur.parent_studio then
        match find (cur.parent_studio.getD []) with
        | none => none
        | some nxt => chainLoop find fuel nxt (acc ++ [nxt.name])
      else some acc := rfl

theorem chainLoop_walk (find : Str → Option Studio) {st : Studio}
    {names : List Str} (hw : StudioWalk find st names) :
    ∀ (k : Nat) (acc : List (Option Str)),
      chainLoop find (k + names.length + 1) st acc = some (acc ++ names.map some) := by
  induction hw with
  | stop st hst =>
    intro k acc
    show chainLoop find (k + 0 + 1) st acc = some (acc ++ [])
    simp [chainLoop, hst]
  | step st nxt nm rest hp hf hn hw ih =>
    intro k acc
    have h1 : k + (nm :: rest).length + 1 = (k + rest.length + 1) + 1 := by
      simp only [List.length_cons]
      omega
    rw [h1, chainLoop_succ, if_pos hp, hf]
    dsimp only
    rw [hn, ih k (acc ++ [some nm])]
    simp [List.append_assoc]

/-- C9: for a scene whose studio has a finite, fully-named parent chain, the
chain variable resolves to the studio names joined with `/` from root to
leaf. -/
theorem claim_C9_parent_chain (cf k : Nat) (find : Str → Option Studio)
    (scene : Scene) (st : Studio) (names : List Str)
    (hst : scene.studio = some st) (hw : StudioWalk find st names)
    (hcf : cf = k + names.length + 1) :
    get_parent_studio_chain cf find scene
      = some (List.intercalate (strOf "/") ((st.name.getD [] :: names).reverse)) := by
  subst hcf
  unfold get_parent_studio_chain
  rw [hst]
  simp only [Option.getD_some]
  rw [chainLoop_walk find hw k [some (st.name.getD [])]]
  have hmap : ([some (st.name.getD [])] ++ names.map some)
      = ((st.name.getD [] :: names).map some) := by simp
  rw [hmap]
  show (optionAll (List.map some (st.name.getD [] :: names))).bind
      (fun ns => some (List.intercalate (strOf "/") ns.reverse))
    = some (List.intercalate (strOf "/") (st.name.getD [] :: names).reverse)
  rw [optionAll_map_some]
  rfl

/-- C9 witness: studio `A` with parent `B` with parent `C` (root) resolves to
`C/B/A`. -/
theorem claim_C9_witness :
    get_parent_studio_chain 3 findW
      ⟨none, none, none, none, none, some studioA⟩ = some (strOf "C/B/A") := by
  rw [claim_C9_parent_chain 3 0 findW
    ⟨none, none, none, none, none, some studioA⟩ studioA [strOf "B", strOf "C"] rfl
    (.step studioA ⟨some (strOf "B"), some (strOf "c"), []⟩ (strOf "B") [strOf "C"]
      (by decide) (by decide) rfl
      (.step ⟨some (strOf "B"), some (strOf "c"), []⟩ ⟨some (strOf "C"), none, []⟩
        (strOf "C") [] (by decide) (by decide) rfl
        (.stop ⟨some (strOf "C"), none, []⟩ (by decide)))) rfl]
  decide

/-! ### Claim C2 -/

theorem collisionLoop_succ (cf : Nat) (env : Env) (config : Config)
    (scene : Scene) (file : FileData) (oldPath : Str) (fuel : Nat)
    (newPath : Str) (idx : Nat) :
    collisionLoop cf env config scene file oldPath (fuel + 1) newPath idx =
      if env.fsExists newPath then
        match get_new_file_path cf env config scene file (idx + 1) with
        | none => .raised
        | some np =>
          if oldPath = np then .sameAfter (idx + 1)
          else collisionLoop cf env config scene file oldPath fuel np (idx + 1)
      else .done newPath idx := rfl

/-- C2: when the candidates at duplicate indices 0 and 1 exist on disk, the
candidate at index 2 does not, and none equals the source path, the collision
loop terminates with duplicate index 2 and `rename_file` returns the third
candidate — which is built from the file name computed at index 2, i.e. with
the duplicate-suffix template applied at 2. -/
theorem claim_C2_duplicate_growth (cf : Nat) (env : Env) (config : Config)
    (scene : Scene) (file : FileData) (lf : Nat) (p0 p1 p2 oldP : Str)
    (hlf : 3 ≤ lf)
    (h0 : get_new_file_path cf env config scene file 0 = some p0)
    (h1 : get_new_file_path cf env config scene file 1 = some p1)
    (h2 : get_new_file_path cf env config scene file 2 = some p2)
    (e0 : env.fsExists p0 = true) (e1 : env.fsExists p1 = true)
    (e2 : env.fsExists p2 = false)
    (hold : oldP = get_old_file_path env file)
    (hex : env.fsExists oldP = true)
    (hne0 : oldP ≠ p0) (hne1 : oldP ≠ p1) (hne2 : oldP ≠ p2) :
    collisionLoop cf env config scene file oldP lf p0 0 = .done p2 2
    ∧ (rename_file lf cf env config scene file).outcome
        = (if config.dry_run then .dryRunStop p2 2 else .renamed p2 2)
    ∧ ∃ folder nm, get_new_file_folder cf env config scene file = some folder
        ∧ get_new_file_name cf env.find config scene file 2 = some nm
        ∧ p2 = pathJoin folder nm := by
  obtain ⟨k, rfl⟩ : ∃ k, lf = k + 3 := ⟨lf - 3, by omega⟩
  have hstep : ∀ (fuel idx : Nat) (np np' : Str), env.fsExists np = true →
      get_new_file_path cf env config scene file (idx + 1) = some np' → oldP ≠ np' →
      collisionLoop cf env config scene file oldP (fuel + 1) np idx
        = collisionLoop cf env config scene file oldP fuel np' (idx + 1) := by
    intro fuel idx np np' hnpex hnp hne
    rw [collisionLoop_succ, if_pos hnpex, hnp]
    dsimp only
    rw [if_neg hne]
  have s1 := hstep (k + 2) 0 p0 p1 e0 h1 hne1
  have s2 := hstep (k + 1) 1 p1 p2 e1 h2 hne2
  have s3 : collisionLoop cf env config scene file oldP (k + 1) p2 2 = .done p2 2 := by
    rw [collisionLoop_succ, if_neg (by simp [e2])]
  have hloop : collisionLoop cf env config scene file oldP (k + 3) p0 0 = .done p2 2 :=
    s1.trans (s2.trans s3)
  have hinv : ∃ folder nm, get_new_file_folder cf env config scene file = some folder
      ∧ get_new_file_name cf env.find config scene file 2 = some nm
      ∧ p2 = pathJoin folder nm := by
    unfold get_new_file_path at h2
    cases hfo : get_new_file_folder cf env config scene file with
    | none => rw [hfo] at h2; simp at h2
    | some folder =>
      rw [hfo] at h2
      dsimp only at h2
      rcases Option.map_eq_some'.1 h2 with ⟨nm, hnm, hjoin⟩
      exact ⟨folder, nm, rfl, hnm, hjoin.symm⟩
  refine ⟨hloop, ?_, hinv⟩
  obtain ⟨folder, nm, hfo, hnm, hjoin⟩ := hinv
  unfold rename_file
  rw [h0]
  dsimp only
  rw [← hold, hex]
  rw [if_neg (by decide : ¬(true = false)), if_neg hne0, hloop]
  dsimp only
  by_cases hdry : config.dry_run = true
  · rw [if_pos hdry, if_pos hdry]
  · rw [if_neg hdry, if_neg hdry, hfo, hnm]

/-- C2 witness: candidate `movie.mp4` and `movie (1).mp4` exist, so the loop
converges on `movie (2).mp4` with duplicate index 2. -/
theorem claim_C2_witness :
    collisionLoop 0 envC2 configC2 sceneC2 fileC2 (strOf "/lib/orig.mp4") 3
        (strOf "/lib/movie.mp4") 0 = .done (strOf "/lib/movie (2).mp4") 2
    ∧ (rename_file 3 0 envC2 configC2 sceneC2 fileC2).outcome
        = (if configC2.dry_run
            then .dryRunStop (strOf "/lib/movie (2).mp4") 2
            else .renamed (strOf "/lib/movie (2).mp4") 2)
    ∧ ∃ folder nm, get_new_file_folder 0 envC2 configC2 sceneC2 fileC2 = some folder
        ∧ get_new_file_name 0 envC2.find configC2 sceneC2 fileC2 2 = some nm
        ∧ strOf "/lib/movie (2).mp4" = pathJoin folder nm :=
  claim_C2_duplicate_growth 0 envC2 configC2 sceneC2 fileC2 3
    (strOf "/lib/movie.mp4") (strOf "/lib/movie (1).mp4")
    (strOf "/lib/movie (2).mp4") (strOf "/lib/orig.mp4")
    (by decide) (by decide) (by decide) (by decide) (by decide) (by decide)
    (by decide) rfl (by decide) (by decide) (by decide) (by decide)

end FileManager
